import Mathlib

/-!
Shallow embedding of `worldcup2022.h` (WorldCup 2022 board-game engine):
the `Player` financial state machine, the board fields and their
pass/land effects, circular board traversal, the dice aggregator, and
the round/turn game loop of `WorldCup2022::play`, together with proofs
of the specification's claims about them.

C++ `unsigned int` values (money, fees, field indices, counters) are
modelled as `Nat`; all quantities in the program stay far below 2^32 and
no overflow wrap is reachable, so plain `Nat` arithmetic is faithful.
-/

namespace WorldCup

/-- Player state, from class `Player`: immutable `name`, `money`,
current `field` index, `suspension` counter and the `bankrupted` flag. -/
structure Player where
  name : String
  money : Nat
  field : Nat
  suspension : Nat
  bankrupted : Bool
deriving DecidableEq

/-- `Player::Player(name)`: starts with 1000 money, on field 0,
no suspension, not bankrupt. -/
def mkPlayer (name : String) : Player :=
  { name := name, money := 1000, field := 0, suspension := 0, bankrupted := false }

/-- `Player::waiting()`: `suspension > 0`. -/
def Player.waiting (p : Player) : Bool := decide (0 < p.suspension)

/-- `Player::getStatus()`. -/
def Player.getStatus (p : Player) : String :=
  if p.bankrupted then "*** bankrut ***"
  else if 0 < p.suspension then "*** czekanie: " ++ toString p.suspension ++ " ***"
  else "w grze"

/-- `Player::waitIfNeeded()`: if `suspension > 0`, decrement it. -/
def Player.waitIfNeeded (p : Player) : Player :=
  if 0 < p.suspension then { p with suspension := p.suspension - 1 } else p

/-- `Player::suspend(i)`: overwrite the suspension counter. -/
def Player.suspend (p : Player) (i : Nat) : Player := { p with suspension := i }

/-- `Player::move(i)`: relocate to field `i`. -/
def Player.move (p : Player) (i : Nat) : Player := { p with field := i }

/-- `Player::pay(i)`: if `money >= i` debit `i` and return `i`;
otherwise set the bankrupt flag, zero the money, and return the
pre-call money (the amount actually collected). -/
def Player.pay (p : Player) (i : Nat) : Player × Nat :=
  if i ≤ p.money then ({ p with money := p.money - i }, i)
  else ({ p with bankrupted := true, money := 0 }, p.money)

/-- `Player::take(i)`: if not bankrupt, credit `i` and report success;
otherwise reject silently, reporting failure. -/
def Player.take (p : Player) (i : Nat) : Player × Bool :=
  if p.bankrupted then (p, false)
  else ({ p with money := p.money + i }, true)

/-- One invocation of a `Player` mutator, used to quantify over
arbitrary sequences of operations on a player. -/
inductive PlayerOp where
  | waitOp : PlayerOp
  | suspendOp (k : Nat) : PlayerOp
  | moveOp (i : Nat) : PlayerOp
  | payOp (i : Nat) : PlayerOp
  | takeOp (i : Nat) : PlayerOp
deriving DecidableEq

/-- Apply one `Player` mutator. -/
def Player.applyOp (p : Player) : PlayerOp → Player
  | .waitOp => p.waitIfNeeded
  | .suspendOp k => p.suspend k
  | .moveOp i => p.move i
  | .payOp i => (p.pay i).1
  | .takeOp i => (p.take i).1

/-- Apply a sequence of `Player` mutators, left to right. -/
def Player.applyOps (p : Player) (ops : List PlayerOp) : Player :=
  ops.foldl Player.applyOp p

/-- Whether a field effect was a pass-through or a landing. -/
inductive EffectKind where
  | pass : EffectKind
  | land : EffectKind
deriving DecidableEq

/-- The behaviour variant of a board field together with its mutable
state, from the `BoardField` subclasses: `Beginning` (gift 50),
`Goal`, `Penalty`, `YellowCard`, `Bookmaker` (bet, cycle = 3, visitor
counter), `Match` (fee, weight, accumulated pool) and `EmptyField`.
The C++ `double weight` of `Match` is modelled as the rational
`wNum / wDen`; the board's weights are 1.0, 2.5 and 4.0, each exactly
representable, and the `int` conversion of `howMuchMoney * weight`
truncates toward zero, which for these nonnegative exact products is
the floor `pool * wNum / wDen` in `Nat` division. -/
inductive FieldKind where
  | beginning (gift : Nat) : FieldKind
  | goal (bonus : Nat) : FieldKind
  | penalty (fee : Nat) : FieldKind
  | yellowCard (suspension : Nat) : FieldKind
  | bookmaker (bet cycle players : Nat) : FieldKind
  | matchField (fee wNum wDen pool : Nat) : FieldKind
  | emptyField : FieldKind
deriving DecidableEq

/-- A board field: immutable display name plus behaviour variant. -/
structure BoardField where
  name : String
  kind : FieldKind
deriving DecidableEq

/-- `BoardField::passField`: only `Beginning` (credit the gift) and
`Match` (add the amount actually collected by `pay(fee)` to the pool)
override the no-op default. -/
def passField (k : FieldKind) (p : Player) : FieldKind × Player :=
  match k with
  | .beginning gift => (k, (p.take gift).1)
  | .matchField fee wNum wDen pool =>
      let r := p.pay fee
      (.matchField fee wNum wDen (pool + r.2), r.1)
  | _ => (k, p)

/-- `BoardField::landOnField` per variant: `Beginning` credits the
gift, `Goal` credits the bonus, `Penalty` debits the fee, `YellowCard`
sets the suspension, `Bookmaker` credits the bet when its counter is 0
and debits it otherwise, always advancing the counter mod `cycle`,
`Match` credits `pool * weight` (truncated) and clears the pool only
when the credit succeeds, `EmptyField` does nothing. -/
def landOnField (k : FieldKind) (p : Player) : FieldKind × Player :=
  match k with
  | .beginning gift => (k, (p.take gift).1)
  | .goal bonus => (k, (p.take bonus).1)
  | .penalty fee => (k, (p.pay fee).1)
  | .yellowCard suspension => (k, p.suspend suspension)
  | .bookmaker bet cycle players =>
      let p1 := if players = 0 then (p.take bet).1 else (p.pay bet).1
      (.bookmaker bet cycle ((players + 1) % cycle), p1)
  | .matchField fee wNum wDen pool =>
      let r := p.take (pool * wNum / wDen)
      (.matchField fee wNum wDen (if r.2 then 0 else pool), r.1)
  | .emptyField => (k, p)

/-- One visit to a `Match` field: a player either passes through or
lands on it. -/
inductive MatchEv where
  | passEv (p : Player) : MatchEv
  | landEv (p : Player) : MatchEv
deriving DecidableEq

/-- The accumulated pool (`howMuchMoney`) of a `Match` field kind. -/
def FieldKind.pool : FieldKind → Nat
  | .matchField _ _ _ pool => pool
  | _ => 0

/-- Run a sequence of visits through a `Match` field with the given
fee and weight, tracking the field's accumulated pool across the
visits (each event supplies the visiting player's state at that
moment). -/
def matchRun (fee wNum wDen : Nat) (pool : Nat) : List MatchEv → Nat
  | [] => pool
  | ev :: evs =>
      let pool' := match ev with
        | .passEv p => (passField (.matchField fee wNum wDen pool) p).1.pool
        | .landEv p => (landOnField (.matchField fee wNum wDen pool) p).1.pool
      matchRun fee wNum wDen pool' evs

/-- The amount a visit actually contributes to the pool: for a pass,
the amount `pay(fee)` actually collects (fee capped at the player's
money); lands contribute nothing. -/
def passPaid (fee : Nat) : MatchEv → Nat
  | .passEv p => min fee p.money
  | .landEv _ => 0

/-- The visitor counter (`players`) of a `Bookmaker` field kind. -/
def FieldKind.bmCounter : FieldKind → Nat
  | .bookmaker _ _ players => players
  | _ => 0

/-- Successive landings on a `Bookmaker` field, starting from visitor
counter `counter`: records, per landing in arrival order, the counter
value that landing saw together with the resulting player, and returns
the counter left for the next visitor. -/
def bookmakerLandings (bet cycle counter : Nat) :
    List Player → List (Nat × Player) × Nat
  | [] => ([], counter)
  | p :: ps =>
      let r := landOnField (.bookmaker bet cycle counter) p
      let rest := bookmakerLandings bet cycle r.1.bmCounter ps
      ((counter, r.2) :: rest.1, rest.2)

/-- The board: an ordered circular sequence of fields
(`std::vector<std::shared_ptr<BoardField>> fields`). -/
structure Board where
  fields : List BoardField
deriving DecidableEq

/-- Apply the pass-effect of the field at index `idx`, returning the
updated field list and player (the index is always in bounds when
invoked by `playerMove` on a nonempty board). -/
def passAt (fields : List BoardField) (idx : Nat) (p : Player) :
    List BoardField × Player :=
  match fields.get? idx with
  | some f =>
      let r := passField f.kind p
      (fields.set idx { f with kind := r.1 }, r.2)
  | none => (fields, p)

/-- Apply the land-effect of the field at index `idx`. -/
def landAt (fields : List BoardField) (idx : Nat) (p : Player) :
    List BoardField × Player :=
  match fields.get? idx with
  | some f =>
      let r := landOnField f.kind p
      (fields.set idx { f with kind := r.1 }, r.2)
  | none => (fields, p)

/-- The intermediate-field loop of `Board::playerMove`:
`while (counter + 1 < i)` invoke the pass-effect of field
`(currentField + counter + 1) % fields.size()` and increment
`counter`. Also records the trace of invoked effects. -/
def passLoop (fields : List BoardField) (p : Player) (cur counter i : Nat) :
    List BoardField × Player × List (Nat × EffectKind) :=
  if counter + 1 < i then
    let idx := (cur + counter + 1) % fields.length
    let r := passAt fields idx p
    let rest := passLoop r.1 r.2 cur (counter + 1) i
    (rest.1, rest.2.1, (idx, EffectKind.pass) :: rest.2.2)
  else (fields, p, [])
termination_by i - counter

/-- `Board::playerMove(player, i)`: invoke the pass-effects of the
`i - 1` intermediate fields, relocate the player to
`(currentField + i) % fields.size()`, and invoke that field's
land-effect. Returns the updated board and player together with the
trace of invoked effects in order. -/
def Board.playerMove (b : Board) (p : Player) (i : Nat) :
    Board × Player × List (Nat × EffectKind) :=
  let currentField := p.field
  let nextField := (currentField + i) % b.fields.length
  let r := passLoop b.fields p currentField 0 i
  let p1 := r.2.1.move nextField
  let r2 := landAt r.1 nextField p1
  (⟨r2.1⟩, r2.2, r.2.2 ++ [(nextField, EffectKind.land)])

/-- `Board::getFieldName(i)`. -/
def Board.getFieldName (b : Board) (i : Nat) : String :=
  ((b.fields.get? i).map BoardField.name).getD ""

/-- The fixed 12-field board built by `Board::Board()` (names
reproduce the source file's literal bytes). -/
def worldcupBoard : Board :=
  ⟨[⟨"Pocz??tek sezonu", .beginning 50⟩,
    ⟨"Mecz z San Marino", .matchField 160 1 1 0⟩,
    ⟨"Dzie?? wolny od treningu", .emptyField⟩,
    ⟨"Mecz z Liechtensteinem", .matchField 220 1 1 0⟩,
    ⟨"??????ta kartka", .yellowCard 3⟩,
    ⟨"Mecz z Meksykiem", .matchField 300 5 2 0⟩,
    ⟨"Mecz z Arabi?? Saudyjsk??", .matchField 280 5 2 0⟩,
    ⟨"Bukmacher", .bookmaker 100 3 0⟩,
    ⟨"Mecz z Argentyn??", .matchField 250 5 2 0⟩,
    ⟨"Gol", .goal 120⟩,
    ⟨"Mecz z Francj??", .matchField 400 4 1 0⟩,
    ⟨"Rzut karny", .penalty 180⟩]⟩

/-- The four startup configuration errors
(`TooManyDiceException`, `TooFewDiceException`,
`TooManyPlayersException`, `TooFewPlayersException`). -/
inductive WcError where
  | tooManyDice : WcError
  | tooFewDice : WcError
  | tooManyPlayers : WcError
  | tooFewPlayers : WcError
deriving DecidableEq

/-- The dice aggregator (class `Dice`): the dice actually supplied,
the configured count, and the number of rolls performed so far. Each
die is an external capability; it is modelled as its outcome stream
`Nat → Nat` (its `t`-th call returns the `t`-th outcome), and all
supplied dice are called exactly once per aggregate roll. -/
structure Dice where
  dice : List (Nat → Nat)
  diceCount : Nat
  rollIdx : Nat

/-- `Dice::addDie`: a null die is ignored. -/
def Dice.addDie (d : Dice) (die : Option (Nat → Nat)) : Dice :=
  match die with
  | some f => { d with dice := d.dice ++ [f] }
  | none => d

/-- `Dice::roll`: raises the too-few / too-many dice error when the
supplied count differs from the configured count, otherwise returns
the sum of the dice outcomes. -/
def Dice.roll (d : Dice) : Except WcError (Nat × Dice) :=
  if d.dice.length < d.diceCount then .error .tooFewDice
  else if d.diceCount < d.dice.length then .error .tooManyDice
  else .ok ((d.dice.map (fun f => f d.rollIdx)).sum,
    { d with rollIdx := d.rollIdx + 1 })

/-- Observer notifications (`ScoreBoard::onRound`, `onTurn`, `onWin`). -/
inductive Event where
  | onRound (roundNo : Nat) : Event
  | onTurn (playerName playerStatus squareName : String) (cash : Nat) : Event
  | onWin (playerName : String) : Event
deriving DecidableEq

/-- The per-round inner loop of `WorldCup2022::play`, processing
players from index `i`: decrement the suspension, roll and move when
not waiting, notify the turn summary, and when the player is bankrupt
remove it without advancing the index (the next player slides into the
vacated slot), ending the pass immediately when one player remains.
Returns the notifications emitted and either the dice error raised by
`roll` or the updated state. -/
def roundLoop (d : Dice) (b : Board) (ps : List Player) (i : Nat) :
    List Event × Except WcError (Dice × Board × List Player) :=
  if h : i < ps.length then
    let p1 := (ps.get ⟨i, h⟩).waitIfNeeded
    match (if p1.waiting then Except.ok (d, b, p1)
           else match d.roll with
                | .error e => .error e
                | .ok (n, d2) =>
                    let r := b.playerMove p1 n
                    Except.ok (d2, r.1, r.2.1)) with
    | .error e => ([], .error e)
    | .ok (d2, b2, p2) =>
        let ev := Event.onTurn p2.name p2.getStatus (b2.getFieldName p2.field) p2.money
        if p2.bankrupted then
          let ps2 := ps.eraseIdx i
          if ps2.length = 1 then ([ev], .ok (d2, b2, ps2))
          else
            let rest := roundLoop d2 b2 ps2 i
            (ev :: rest.1, rest.2)
        else
          let rest := roundLoop d2 b2 (ps.set i p2) (i + 1)
          (ev :: rest.1, rest.2)
  else ([], .ok (d, b, ps))
termination_by ps.length - i
decreasing_by
  · have : (ps.eraseIdx i).length = ps.length - 1 := by
      rw [List.length_eraseIdx]
      simp [h]
    omega
  · simp only [List.length_set]
    omega

/-- The outer round loop of `WorldCup2022::play`: while rounds remain
and more than one player is left, notify the round start and run the
pass over the players. -/
def roundsLoop (d : Dice) (b : Board) (ps : List Player)
    (roundNumber rounds : Nat) :
    List Event × Except WcError (Dice × Board × List Player) :=
  if roundNumber < rounds ∧ 1 < ps.length then
    let r := roundLoop d b ps 0
    match r.2 with
    | .error e => (Event.onRound roundNumber :: r.1, .error e)
    | .ok (d2, b2, ps2) =>
        let rest := roundsLoop d2 b2 ps2 (roundNumber + 1) rounds
        (Event.onRound roundNumber :: (r.1 ++ rest.1), rest.2)
  else ([], .ok (d, b, ps))
termination_by rounds - roundNumber
decreasing_by omega

/-- The winner fold at the end of `play`: a running best, starting at
`players[0]` and replaced only on strictly greater money. -/
def findWinner (ps : List Player) (w : Player) : Player :=
  match ps with
  | [] => w
  | p :: rest => findWinner rest (if w.money < p.money then p else w)

/-- The full game state (`WorldCup2022`). -/
structure WorldCup2022 where
  dice : Dice
  players : List Player
  board : Board

/-- `WorldCup2022::play(rounds)`: validate the player count, run the
round loop, pick the winner by the strict-greater fold over the final
roster starting at its first entry, and notify the win. Returns all
observer notifications in order and either a startup error or the
final roster. (On a started game the final roster is provably
nonempty; the empty arm mirrors the fact that the C++ code would
dereference `players[0]` and is unreachable.) -/
def WorldCup2022.play (g : WorldCup2022) (rounds : Nat) :
    List Event × Except WcError (List Player) :=
  if 11 < g.players.length then ([], .error .tooManyPlayers)
  else if g.players.length < 2 then ([], .error .tooFewPlayers)
  else
    let r := roundsLoop g.dice g.board g.players 0 rounds
    match r.2 with
    | .error e => (r.1, .error e)
    | .ok (_, _, ps2) =>
        match ps2 with
        | [] => (r.1, .ok [])
        | p :: rest =>
            (r.1 ++ [Event.onWin (findWinner (p :: rest) p).name], .ok (p :: rest))

/-- A fresh game: `WorldCup2022()` configures a two-dice aggregator,
no players, and the fixed board. -/
def WorldCup2022.init : WorldCup2022 :=
  { dice := { dice := [], diceCount := 2, rollIdx := 0 },
    players := [], board := worldcupBoard }

/-- `WorldCup2022::addDie`: a null pointer is a no-op. -/
def WorldCup2022.addDie (g : WorldCup2022) (die : Option (Nat → Nat)) :
    WorldCup2022 :=
  match die with
  | some f => { g with dice := g.dice.addDie (some f) }
  | none => g

/-- `WorldCup2022::addPlayer(name)`: append a fresh player. -/
def WorldCup2022.addPlayer (g : WorldCup2022) (name : String) : WorldCup2022 :=
  { g with players := g.players ++ [mkPlayer name] }

/-- The player names carried by the `onTurn` notifications of an event
list, in order. -/
def turnNames (evs : List Event) : List String :=
  evs.filterMap (fun e => match e with
    | .onTurn n _ _ _ => some n
    | _ => none)

/-- Iterated start-of-turn suspension decrements: a player's state
after `n` of their turns have begun (each turn begins with
`waitIfNeeded`). -/
def gateIter (p : Player) : Nat → Player
  | 0 => p
  | n + 1 => gateIter p.waitIfNeeded n

/-- Whether the engine rolls and moves the player on their `t`-th turn
(1-indexed) from initial state `p`, per the body of the play loop:
`waitIfNeeded` decrements the counter first, and then the `waiting`
check decides whether the player rolls and moves. -/
def movesAtTurn (p : Player) (t : Nat) : Bool :=
  !((gateIter p (t - 1)).waitIfNeeded).waiting

/-- A demonstration game: two constant dice (outcomes 1 and 0, so
every roll totals 1) and two players. -/
def demoGame : WorldCup2022 :=
  (((WorldCup2022.init.addDie (some (fun _ => 1))).addDie
    (some (fun _ => 0))).addPlayer "A").addPlayer "B"

/-- A misconfigured game: only one die supplied out of the two
configured, with a valid two-player roster. -/
def demoGameOneDie : WorldCup2022 :=
  ((WorldCup2022.init.addDie (some (fun _ => 1))).addPlayer "A").addPlayer "B"

/-- A misconfigured game: three dice supplied out of the two
configured, with a valid two-player roster. -/
def demoGameThreeDice : WorldCup2022 :=
  ((((WorldCup2022.init.addDie (some (fun _ => 1))).addDie
    (some (fun _ => 0))).addDie (some (fun _ => 0))).addPlayer "A").addPlayer "B"

/-- A misconfigured game: a single player. -/
def demoGameOnePlayer : WorldCup2022 :=
  ((WorldCup2022.init.addDie (some (fun _ => 1))).addDie
    (some (fun _ => 0))).addPlayer "A"

/-- A misconfigured game: twelve players. -/
def demoGameTwelve : WorldCup2022 :=
  (((((((((((((WorldCup2022.init.addDie (some (fun _ => 1))).addDie
    (some (fun _ => 0))).addPlayer "P1").addPlayer "P2").addPlayer
    "P3").addPlayer "P4").addPlayer "P5").addPlayer "P6").addPlayer
    "P7").addPlayer "P8").addPlayer "P9").addPlayer "P10").addPlayer
    "P11").addPlayer "P12"

end WorldCup

namespace WorldCup

lemma pay_money_le (p : Player) (i : Nat) (h : i ≤ p.money) :
    p.pay i = ({ p with money := p.money - i }, i) := by
  simp [Player.pay, h]

lemma pay_money_lt (p : Player) (i : Nat) (h : p.money < i) :
    p.pay i = ({ p with bankrupted := true, money := 0 }, p.money) := by
  simp [Player.pay, Nat.not_le.mpr h]

/-- A single mutator preserves the bankrupt-with-zero-money state. -/
lemma applyOp_bankrupt_zero (p : Player) (op : PlayerOp)
    (hb : p.bankrupted = true) (hm : p.money = 0) :
    (p.applyOp op).bankrupted = true ∧ (p.applyOp op).money = 0 := by
  cases op with
  | waitOp =>
      simp only [Player.applyOp, Player.waitIfNeeded]
      split <;> simp [hb, hm]
  | suspendOp k => simp [Player.applyOp, Player.suspend, hb, hm]
  | moveOp i => simp [Player.applyOp, Player.move, hb, hm]
  | payOp i =>
      simp only [Player.applyOp, Player.pay]
      split
      · exact ⟨hb, by show p.money - i = 0; omega⟩
      · exact ⟨rfl, rfl⟩
  | takeOp i => simp [Player.applyOp, Player.take, hb, hm]

/-- Any sequence of mutators preserves the bankrupt-with-zero-money state. -/
lemma applyOps_bankrupt_zero (ops : List PlayerOp) (p : Player)
    (hb : p.bankrupted = true) (hm : p.money = 0) :
    (p.applyOps ops).bankrupted = true ∧ (p.applyOps ops).money = 0 := by
  induction ops generalizing p with
  | nil => exact ⟨hb, hm⟩
  | cons op rest ih =>
      have h1 := applyOp_bankrupt_zero p op hb hm
      simpa [Player.applyOps, List.foldl_cons] using ih (p.applyOp op) h1.1 h1.2

/-- C2: `pay(amount)` with `amount ≤ money` debits exactly `amount`,
returns `amount`, and leaves the bankrupt flag unchanged; with
`amount > money` it zeroes the money, sets the bankrupt flag, and
returns the pre-call money (the lesser amount actually collected). -/
theorem pay_spec (p : Player) (amount : Nat) :
    (amount ≤ p.money →
      (p.pay amount).1.money = p.money - amount ∧
      (p.pay amount).2 = amount ∧
      (p.pay amount).1.bankrupted = p.bankrupted) ∧
    (p.money < amount →
      (p.pay amount).1.money = 0 ∧
      (p.pay amount).1.bankrupted = true ∧
      (p.pay amount).2 = p.money) := by
  constructor
  · intro h
    rw [pay_money_le p amount h]
    exact ⟨rfl, rfl, rfl⟩
  · intro h
    rw [pay_money_lt p amount h]
    exact ⟨rfl, rfl, rfl⟩

theorem pay_spec_witness :
    ((mkPlayer "A").pay 300).1.money = (mkPlayer "A").money - 300 ∧
    ((mkPlayer "A").pay 300).2 = 300 ∧
    ((mkPlayer "A").pay 300).1.bankrupted = (mkPlayer "A").bankrupted :=
  (pay_spec (mkPlayer "A") 300).1 (by decide)

/-- C7: once a player is bankrupt (a state the code always enters with
zero money), the flag is never cleared and the money stays exactly 0
under every sequence of operations, and every subsequent `take`
leaves the player unchanged and reports failure. -/
theorem bankrupt_terminal (p : Player) (hb : p.bankrupted = true) (hm : p.money = 0) :
    (∀ ops : List PlayerOp,
      (p.applyOps ops).bankrupted = true ∧ (p.applyOps ops).money = 0) ∧
    (∀ i : Nat, (p.take i).1 = p ∧ (p.take i).2 = false) := by
  refine ⟨fun ops => applyOps_bankrupt_zero ops p hb hm, fun i => ?_⟩
  simp [Player.take, hb]

lemma pay_fst_field (p : Player) (i : Nat) : (p.pay i).1.field = p.field := by
  unfold Player.pay; split <;> rfl

lemma take_fst_field (p : Player) (i : Nat) : (p.take i).1.field = p.field := by
  unfold Player.take; split <;> rfl

lemma pay_fst_name (p : Player) (i : Nat) : (p.pay i).1.name = p.name := by
  unfold Player.pay; split <;> rfl

lemma take_fst_name (p : Player) (i : Nat) : (p.take i).1.name = p.name := by
  unfold Player.take; split <;> rfl

lemma passField_player_field (k : FieldKind) (p : Player) :
    (passField k p).2.field = p.field := by
  unfold passField
  split <;> simp [pay_fst_field, take_fst_field]

lemma landOnField_player_field (k : FieldKind) (p : Player) :
    (landOnField k p).2.field = p.field := by
  unfold landOnField
  split <;> simp [pay_fst_field, take_fst_field, Player.suspend]
  split <;> simp [pay_fst_field, take_fst_field]

lemma passField_player_name (k : FieldKind) (p : Player) :
    (passField k p).2.name = p.name := by
  unfold passField
  split <;> simp [pay_fst_name, take_fst_name]

lemma landOnField_player_name (k : FieldKind) (p : Player) :
    (landOnField k p).2.name = p.name := by
  unfold landOnField
  split <;> simp [pay_fst_name, take_fst_name, Player.suspend]
  split <;> simp [pay_fst_name, take_fst_name]

lemma passAt_length (fields : List BoardField) (idx : Nat) (p : Player) :
    (passAt fields idx p).1.length = fields.length := by
  unfold passAt
  cases fields.get? idx <;> simp

lemma landAt_length (fields : List BoardField) (idx : Nat) (p : Player) :
    (landAt fields idx p).1.length = fields.length := by
  unfold landAt
  cases fields.get? idx <;> simp

lemma passAt_player_field (fields : List BoardField) (idx : Nat) (p : Player) :
    (passAt fields idx p).2.field = p.field := by
  unfold passAt
  cases fields.get? idx <;> simp [passField_player_field]

lemma landAt_player_field (fields : List BoardField) (idx : Nat) (p : Player) :
    (landAt fields idx p).2.field = p.field := by
  unfold landAt
  cases fields.get? idx <;> simp [landOnField_player_field]

lemma passAt_player_name (fields : List BoardField) (idx : Nat) (p : Player) :
    (passAt fields idx p).2.name = p.name := by
  unfold passAt
  cases fields.get? idx <;> simp [passField_player_name]

lemma landAt_player_name (fields : List BoardField) (idx : Nat) (p : Player) :
    (landAt fields idx p).2.name = p.name := by
  unfold landAt
  cases fields.get? idx <;> simp [landOnField_player_name]

/-- The intermediate-field loop preserves the field count and emits one
pass-effect per remaining iteration, on consecutive circular indices. -/
lemma passLoop_spec (fields : List BoardField) (p : Player) (cur counter i : Nat) :
    (passLoop fields p cur counter i).1.length = fields.length ∧
    (passLoop fields p cur counter i).2.2 =
      (List.range (i - (counter + 1))).map
        (fun j => ((cur + counter + 1 + j) % fields.length, EffectKind.pass)) := by
  induction fields, p, cur, counter, i using passLoop.induct with
  | case1 fields p cur counter i h idx r ih =>
      rw [passLoop, if_pos h]
      have hlen : (passAt fields ((cur + counter + 1) % fields.length) p).1.length
          = fields.length := passAt_length _ _ _
      refine ⟨by simpa [hlen] using ih.1, ?_⟩
      have htr := ih.2
      simp only [hlen] at htr
      simp only [htr]
      have hm : i - (counter + 1) = (i - (counter + 1 + 1)) + 1 := by omega
      rw [hm, List.range_succ_eq_map, List.map_cons, List.map_map]
      have hx : ∀ a : Nat, cur + (counter + 1) + 1 + a = cur + counter + 1 + (a + 1) := by
        intro a; omega
      simp [Function.comp, Nat.succ_eq_add_one, hx]
  | case2 fields p cur counter i h =>
      rw [passLoop, if_neg h]
      have : i - (counter + 1) = 0 := by omega
      simp [this]

/-- `playerMove` trace and destination: `steps - 1` pass-effects on the
consecutive intermediate fields, then relocation and one land-effect on
`(start + steps) % fields.length`. -/
lemma playerMove_spec (b : Board) (p : Player) (i : Nat) :
    (b.playerMove p i).2.2 =
      ((List.range (i - 1)).map
        (fun j => ((p.field + j + 1) % b.fields.length, EffectKind.pass)))
        ++ [((p.field + i) % b.fields.length, EffectKind.land)] ∧
    (b.playerMove p i).2.1.field = (p.field + i) % b.fields.length := by
  unfold Board.playerMove
  have hs := passLoop_spec b.fields p p.field 0 i
  constructor
  · simp only [hs.2]
    congr 1
    apply List.map_congr_left
    intro a _
    congr 2
    omega
  · simp [landAt_player_field, Player.move]

/-- `playerMove` preserves the player's name. -/
lemma playerMove_name (b : Board) (p : Player) (i : Nat) :
    (b.playerMove p i).2.1.name = p.name := by
  unfold Board.playerMove
  simp only [landAt_player_name, Player.move]
  generalize b.fields = fs
  induction fs, p, p.field, 0, i using passLoop.induct with
  | case1 fields q cur counter n h idx r ih =>
      rw [passLoop, if_pos h]
      have ih' : (passLoop (passAt fields ((cur + counter + 1) % fields.length) q).1
          (passAt fields ((cur + counter + 1) % fields.length) q).2 cur (counter + 1) n).2.1.name
          = (passAt fields ((cur + counter + 1) % fields.length) q).2.name := ih
      rw [passAt_player_name] at ih'
      simpa using ih'
  | case2 fields q cur counter n h =>
      rw [passLoop, if_neg h]

/-- C1: for `steps > 0`, `playerMove` invokes exactly `steps - 1`
pass-effects, one on each intermediate field strictly between the
start field and `(start + steps) % fieldCount` in circular order,
before relocating the player there and invoking exactly one
land-effect on the destination; for `steps = 0` no pass-effect is
invoked and the land-effect of the player's current field is
triggered again. -/
theorem playerMove_effects (b : Board) (p : Player) (steps : Nat)
    (hp : p.field < b.fields.length) :
    (0 < steps →
      (b.playerMove p steps).2.2 =
        ((List.range (steps - 1)).map
          (fun j => ((p.field + j + 1) % b.fields.length, EffectKind.pass)))
          ++ [((p.field + steps) % b.fields.length, EffectKind.land)] ∧
      (b.playerMove p steps).2.1.field = (p.field + steps) % b.fields.length) ∧
    (steps = 0 →
      (b.playerMove p steps).2.2 = [(p.field, EffectKind.land)] ∧
      (b.playerMove p steps).2.1.field = p.field) := by
  have hs := playerMove_spec b p steps
  refine ⟨fun _ => hs, fun h0 => ?_⟩
  subst h0
  have hmod : (p.field + 0) % b.fields.length = p.field := by
    rw [Nat.add_zero, Nat.mod_eq_of_lt hp]
  constructor
  · rw [hs.1]
    simp [hmod, Nat.mod_eq_of_lt hp]
  · rw [hs.2, hmod]

theorem playerMove_effects_witness :
    ((worldcupBoard.playerMove (mkPlayer "A") 3).2.2 =
      ((List.range (3 - 1)).map
        (fun j => (((mkPlayer "A").field + j + 1) % worldcupBoard.fields.length,
          EffectKind.pass)))
        ++ [(((mkPlayer "A").field + 3) % worldcupBoard.fields.length,
          EffectKind.land)] ∧
    (worldcupBoard.playerMove (mkPlayer "A") 3).2.1.field =
      ((mkPlayer "A").field + 3) % worldcupBoard.fields.length) :=
  (playerMove_effects worldcupBoard (mkPlayer "A") 3 (by decide)).1 (by decide)

/-- C6 counterexample: a roll of 12 from field 0 on the 12-field board
(a full lap, `steps % 12 = 0`, `steps > 0`) invokes 11 intermediate
pass-effects before the land-effect on the occupied field, refuting
the claim that no pass-effect is invoked for the lap. -/
theorem lap_counterexample :
    ((worldcupBoard.playerMove (mkPlayer "L") 12).2.2.countP
      (fun e => decide (e.2 = EffectKind.pass))) = 11 ∧
    (worldcupBoard.playerMove (mkPlayer "L") 12).2.2 ≠
      [((mkPlayer "L").field, EffectKind.land)] := by
  have hs := playerMove_spec worldcupBoard (mkPlayer "L") 12
  rw [hs.1]
  constructor <;> decide

/-- C6 amended: for `steps > 0` with `steps % fieldCount = 0`, the
movement invokes `steps - 1` pass-effects on the intermediate fields
of the lap, in circular order, and then re-triggers the land-effect of
the field the player already occupies (the player's field is
unchanged). -/
theorem lap_effects (b : Board) (p : Player) (steps : Nat)
    (hp : p.field < b.fields.length) (hpos : 0 < steps)
    (hmod : steps % b.fields.length = 0) :
    (b.playerMove p steps).2.2 =
      ((List.range (steps - 1)).map
        (fun j => ((p.field + j + 1) % b.fields.length, EffectKind.pass)))
        ++ [(p.field, EffectKind.land)] ∧
    (b.playerMove p steps).2.1.field = p.field := by
  have hs := playerMove_spec b p steps
  have hdest : (p.field + steps) % b.fields.length = p.field := by
    rw [Nat.add_mod, hmod, Nat.add_zero, Nat.mod_mod_of_dvd _ dvd_rfl,
      Nat.mod_eq_of_lt hp]
  constructor
  · rw [hs.1, hdest]
  · rw [hs.2, hdest]

theorem lap_effects_witness :
    (worldcupBoard.playerMove (mkPlayer "L") 12).2.2 =
      ((List.range (12 - 1)).map
        (fun j => (((mkPlayer "L").field + j + 1) % worldcupBoard.fields.length,
          EffectKind.pass)))
        ++ [((mkPlayer "L").field, EffectKind.land)] ∧
    (worldcupBoard.playerMove (mkPlayer "L") 12).2.1.field = (mkPlayer "L").field :=
  lap_effects worldcupBoard (mkPlayer "L") 12 (by decide) (by decide) (by decide)

theorem bankrupt_terminal_witness :
    (∀ ops : List PlayerOp,
      (((mkPlayer "B").pay 2000).1.applyOps ops).bankrupted = true ∧
      (((mkPlayer "B").pay 2000).1.applyOps ops).money = 0) ∧
    (∀ i : Nat, (((mkPlayer "B").pay 2000).1.take i).1 = ((mkPlayer "B").pay 2000).1 ∧
      (((mkPlayer "B").pay 2000).1.take i).2 = false) :=
  bankrupt_terminal ((mkPlayer "B").pay 2000).1 (by decide) (by decide)

lemma pay_snd (p : Player) (i : Nat) : (p.pay i).2 = min i p.money := by
  unfold Player.pay
  split
  · next h => rw [Nat.min_eq_left h]
  · next h => rw [Nat.min_eq_right (by omega)]

lemma take_snd (p : Player) (i : Nat) : (p.take i).2 = !p.bankrupted := by
  unfold Player.take
  split <;> simp_all

lemma matchRun_append (fee wNum wDen pool : Nat) (l1 l2 : List MatchEv) :
    matchRun fee wNum wDen pool (l1 ++ l2) =
      matchRun fee wNum wDen (matchRun fee wNum wDen pool l1) l2 := by
  induction l1 generalizing pool with
  | nil => rfl
  | cons ev rest ih =>
      simp only [List.cons_append, matchRun]
      exact ih _

lemma matchRun_pass (fee wNum wDen pool : Nat) (p : Player) :
    matchRun fee wNum wDen pool [.passEv p] = pool + min fee p.money := by
  simp [matchRun, passField, FieldKind.pool, pay_snd]

lemma matchRun_land (fee wNum wDen pool : Nat) (p : Player) :
    matchRun fee wNum wDen pool [.landEv p] =
      if p.bankrupted then pool else 0 := by
  simp only [matchRun, landOnField, FieldKind.pool, take_snd]
  cases h : p.bankrupted <;> simp [h]

/-- The pool after any visit sequence is the sum of the amounts
actually collected from the passes since the last successful payout. -/
lemma matchRun_split (fee wNum wDen : Nat) (evs : List MatchEv) :
    ∃ pre suf, evs = pre ++ suf ∧
      (∀ p : Player, MatchEv.landEv p ∈ suf → p.bankrupted = true) ∧
      (pre = [] ∨ ∃ pre' q, pre = pre' ++ [MatchEv.landEv q] ∧
        Player.bankrupted q = false) ∧
      matchRun fee wNum wDen 0 evs = (suf.map (passPaid fee)).sum := by
  induction evs using List.reverseRecOn with
  | nil => exact ⟨[], [], rfl, by simp, Or.inl rfl, rfl⟩
  | append_singleton evs ev ih =>
      obtain ⟨pre, suf, hsplit, hsuf, hpre, hpool⟩ := ih
      cases ev with
      | passEv p =>
          refine ⟨pre, suf ++ [.passEv p], by rw [hsplit, List.append_assoc],
            ?_, hpre, ?_⟩
          · intro q hq
            rcases List.mem_append.mp hq with h | h
            · exact hsuf q h
            · simp at h
          · rw [matchRun_append, hpool, ← hpool, hpool, matchRun_pass]
            simp [passPaid]
      | landEv p =>
          cases hb : p.bankrupted with
          | true =>
              refine ⟨pre, suf ++ [.landEv p], by rw [hsplit, List.append_assoc],
                ?_, hpre, ?_⟩
              · intro q hq
                rcases List.mem_append.mp hq with h | h
                · exact hsuf q h
                · simp at h
                  rw [h]
                  exact hb
              · rw [matchRun_append, hpool, ← hpool, hpool, matchRun_land, hb]
                simp [passPaid]
          | false =>
              refine ⟨evs ++ [.landEv p], [], by simp, by simp,
                Or.inr ⟨evs, p, rfl, hb⟩, ?_⟩
              rw [matchRun_append, matchRun_land, hb]
              simp

/-- C3: the accumulated pool of a `Match` field always equals the sum
of the actual (possibly partial) amounts collected by `pay(fee)` from
the players who passed since the pool was last cleared; the
land-effect credits the lander `pool * weight` (truncated) and clears
the pool exactly when the credit succeeds (lander not bankrupt), while
a failed payout leaves the pool and the lander unchanged. -/
theorem match_pool_spec (fee wNum wDen : Nat) (evs : List MatchEv) :
    (∃ pre suf, evs = pre ++ suf ∧
      (∀ p : Player, MatchEv.landEv p ∈ suf → p.bankrupted = true) ∧
      (pre = [] ∨ ∃ pre' q, pre = pre' ++ [MatchEv.landEv q] ∧
        Player.bankrupted q = false) ∧
      matchRun fee wNum wDen 0 evs = (suf.map (passPaid fee)).sum) ∧
    (∀ pool : Nat, ∀ p : Player, p.bankrupted = false →
      (landOnField (.matchField fee wNum wDen pool) p).1 =
        FieldKind.matchField fee wNum wDen 0 ∧
      (landOnField (.matchField fee wNum wDen pool) p).2.money =
        p.money + pool * wNum / wDen) ∧
    (∀ pool : Nat, ∀ p : Player, p.bankrupted = true →
      (landOnField (.matchField fee wNum wDen pool) p).1 =
        FieldKind.matchField fee wNum wDen pool ∧
      (landOnField (.matchField fee wNum wDen pool) p).2 = p) := by
  refine ⟨matchRun_split fee wNum wDen evs, ?_, ?_⟩
  · intro pool p hb
    simp [landOnField, Player.take, hb]
  · intro pool p hb
    simp [landOnField, Player.take, hb]

theorem match_pool_spec_witness :
    (∃ pre suf,
      [MatchEv.passEv (mkPlayer "x"), MatchEv.landEv ((mkPlayer "y").pay 2000).1,
        MatchEv.passEv (mkPlayer "z")] = pre ++ suf ∧
      (∀ p : Player, MatchEv.landEv p ∈ suf → p.bankrupted = true) ∧
      (pre = [] ∨ ∃ pre' q, pre = pre' ++ [MatchEv.landEv q] ∧
        Player.bankrupted q = false) ∧
      matchRun 160 1 1 0
        [MatchEv.passEv (mkPlayer "x"), MatchEv.landEv ((mkPlayer "y").pay 2000).1,
          MatchEv.passEv (mkPlayer "z")] = (suf.map (passPaid 160)).sum) ∧
    ((landOnField (.matchField 160 1 1 300) (mkPlayer "w")).1 =
        FieldKind.matchField 160 1 1 0 ∧
      (landOnField (.matchField 160 1 1 300) (mkPlayer "w")).2.money =
        (mkPlayer "w").money + 300 * 1 / 1) ∧
    ((landOnField (.matchField 160 1 1 300) ((mkPlayer "y").pay 2000).1).1 =
        FieldKind.matchField 160 1 1 300 ∧
      (landOnField (.matchField 160 1 1 300) ((mkPlayer "y").pay 2000).1).2 =
        ((mkPlayer "y").pay 2000).1) :=
  ⟨(match_pool_spec 160 1 1 _).1,
    (match_pool_spec 160 1 1 []).2.1 300 (mkPlayer "w") (by decide),
    (match_pool_spec 160 1 1 []).2.2 300 ((mkPlayer "y").pay 2000).1 (by decide)⟩

lemma bookmakerLandings_getD (bet : Nat) (ps : List Player) (c : Nat) (hc : c < 3) :
    ∀ j, j < ps.length →
      (bookmakerLandings bet 3 c ps).1.getD j (0, mkPlayer "") =
        ((c + j) % 3,
          if (c + j) % 3 = 0 then ((ps.getD j (mkPlayer "")).take bet).1
          else ((ps.getD j (mkPlayer "")).pay bet).1) := by
  induction ps generalizing c with
  | nil => intro j hj; simp at hj
  | cons p rest ih =>
      intro j hj
      cases j with
      | zero =>
          have hcc : c % 3 = c := Nat.mod_eq_of_lt hc
          simp [bookmakerLandings, landOnField, hcc]
      | succ j =>
          have hlt : (c + 1) % 3 < 3 := Nat.mod_lt _ (by omega)
          have := ih ((c + 1) % 3) hlt j (by simpa using hj)
          simp only [bookmakerLandings, List.getD_cons_succ]
          rw [show (landOnField (.bookmaker bet 3 c) p).1.bmCounter = (c + 1) % 3
            from rfl, this, Nat.mod_add_mod]
          have : c + 1 + j = c + (j + 1) := by omega
          rw [this]

lemma bookmakerLandings_counter (bet : Nat) (ps : List Player) (c : Nat) (hc : c < 3) :
    (bookmakerLandings bet 3 c ps).2 = (c + ps.length) % 3 := by
  induction ps generalizing c with
  | nil => simp [bookmakerLandings]; omega
  | cons p rest ih =>
      have hlt : (c + 1) % 3 < 3 := Nat.mod_lt _ (by omega)
      simp only [bookmakerLandings]
      rw [show (landOnField (.bookmaker bet 3 c) p).1.bmCounter = (c + 1) % 3
        from rfl, ih ((c + 1) % 3) hlt, Nat.mod_add_mod]
      congr 1
      simp [List.length_cons]
      omega

lemma bookmakerLandings_length (bet cycle c : Nat) (ps : List Player) :
    (bookmakerLandings bet cycle c ps).1.length = ps.length := by
  induction ps generalizing c with
  | nil => rfl
  | cons p rest ih => simp [bookmakerLandings, ih]

lemma take_three_getD (l : List Nat) (j : Nat) (h : j + 3 ≤ l.length) :
    (l.drop j).take 3 = [l.getD j 0, l.getD (j + 1) 0, l.getD (j + 2) 0] := by
  induction l generalizing j with
  | nil => simp at h
  | cons a rest ih =>
      cases j with
      | zero =>
          simp at h
          match rest, h with
          | b :: c :: rest', _ => simp
      | succ j =>
          simp only [List.drop_succ_cons, List.getD_cons_succ]
          exact ih j (by simpa using h)

/-- C4: on a `Bookmaker` field with cycle 3 started at counter 0, the
`j`-th lander (0-indexed arrival order, any players) sees counter
`j % 3` and is credited the bet when `j % 3 = 0`, debited it (partial
on insolvency via `pay`) otherwise; any 3 consecutive landings contain
exactly one credited visitor; and the field-owned counter advances on
every landing regardless of outcome, ending at `length % 3`. -/
theorem bookmaker_cycle (bet : Nat) (ps : List Player) :
    (∀ j, j < ps.length →
      (bookmakerLandings bet 3 0 ps).1.getD j (0, mkPlayer "") =
        (j % 3,
          if j % 3 = 0 then ((ps.getD j (mkPlayer "")).take bet).1
          else ((ps.getD j (mkPlayer "")).pay bet).1)) ∧
    (∀ j, j + 3 ≤ ps.length →
      ((((bookmakerLandings bet 3 0 ps).1.map Prod.fst).drop j).take 3).count 0
        = 1) ∧
    (bookmakerLandings bet 3 0 ps).2 = ps.length % 3 := by
  refine ⟨?_, ?_, ?_⟩
  · intro j hj
    have := bookmakerLandings_getD bet ps 0 (by omega) j hj
    simpa using this
  · intro j hj
    have hlen : ((bookmakerLandings bet 3 0 ps).1.map Prod.fst).length = ps.length := by
      rw [List.length_map, bookmakerLandings_length]
    have hget : ∀ k, k < ps.length →
        ((bookmakerLandings bet 3 0 ps).1.map Prod.fst).getD k 0 = k % 3 := by
      intro k hk
      have hk' : k < (bookmakerLandings bet 3 0 ps).1.length := by
        rw [bookmakerLandings_length]; exact hk
      have := bookmakerLandings_getD bet ps 0 (by omega) k hk
      rw [List.getD_eq_getElem?_getD, List.getElem?_map]
      rw [List.getD_eq_getElem?_getD, List.getElem?_eq_getElem hk'] at this
      rw [List.getElem?_eq_getElem hk']
      simp only [Option.map_some, Option.getD_some] at this ⊢
      rw [this]
      simp
    rw [take_three_getD _ j (by rw [hlen]; exact hj)]
    rw [hget j (by omega), hget (j + 1) (by omega), hget (j + 2) (by omega)]
    have h1 : (j + 1) % 3 = (j % 3 + 1) % 3 := by omega
    have h2 : (j + 2) % 3 = (j % 3 + 2) % 3 := by omega
    have h3 : j % 3 < 3 := Nat.mod_lt _ (by omega)
    interval_cases h : j % 3 <;> simp [h1, h2, List.count_cons]
  · have := bookmakerLandings_counter bet ps 0 (by omega)
    simpa using this

theorem bookmaker_cycle_witness :
    ((bookmakerLandings 100 3 0 [mkPlayer "a", mkPlayer "b", mkPlayer "c",
        mkPlayer "d"]).1.getD 3 (0, mkPlayer "") =
      (3 % 3,
        if 3 % 3 = 0 then
          (([mkPlayer "a", mkPlayer "b", mkPlayer "c",
            mkPlayer "d"].getD 3 (mkPlayer "")).take 100).1
        else
          (([mkPlayer "a", mkPlayer "b", mkPlayer "c",
            mkPlayer "d"].getD 3 (mkPlayer "")).pay 100).1)) ∧
    ((((bookmakerLandings 100 3 0 [mkPlayer "a", mkPlayer "b", mkPlayer "c",
        mkPlayer "d"]).1.map Prod.fst).drop 1).take 3).count 0 = 1 ∧
    (bookmakerLandings 100 3 0 [mkPlayer "a", mkPlayer "b", mkPlayer "c",
        mkPlayer "d"]).2 = 4 % 3 :=
  ⟨(bookmaker_cycle 100 _).1 3 (by decide),
    (bookmaker_cycle 100 _).2.1 1 (by decide),
    (bookmaker_cycle 100 _).2.2⟩

lemma waitIfNeeded_name (p : Player) : p.waitIfNeeded.name = p.name := by
  unfold Player.waitIfNeeded
  split <;> rfl

lemma waitIfNeeded_suspension (p : Player) :
    p.waitIfNeeded.suspension = p.suspension - 1 := by
  unfold Player.waitIfNeeded
  split
  · rfl
  · next h => omega

lemma gateIter_suspension (n : Nat) (p : Player) :
    (gateIter p n).suspension = p.suspension - n := by
  induction n generalizing p with
  | zero => simp [gateIter]
  | succ n ih =>
      rw [gateIter, ih, waitIfNeeded_suspension]
      omega

lemma movesAtTurn_iff (q : Player) (t : Nat) (ht : 1 ≤ t) :
    movesAtTurn q t = true ↔ q.suspension ≤ t := by
  unfold movesAtTurn
  rw [Player.waiting, waitIfNeeded_suspension, gateIter_suspension]
  simp only [Bool.not_eq_true', decide_eq_false_iff_not, Nat.not_lt]
  omega

/-- C10: the suspension counter is decremented before the waiting
check, so a player whose counter is exactly 1 at the start of their
turn rolls and moves on that same turn, and `suspend(k)` with `k ≥ 1`
makes the engine skip the roll on exactly the `k - 1` following turns
(turn `t` moves iff `k ≤ t`). -/
theorem suspension_skips (p : Player) (k : Nat) (hk : 1 ≤ k) :
    (∀ t, 1 ≤ t → (movesAtTurn (p.suspend k) t = true ↔ k ≤ t)) ∧
    (∀ q : Player, q.suspension = 1 → movesAtTurn q 1 = true) ∧
    (∀ t, 1 ≤ t → t < k → movesAtTurn (p.suspend k) t = false) ∧
    movesAtTurn (p.suspend k) k = true := by
  have hs : (p.suspend k).suspension = k := rfl
  refine ⟨fun t ht => by rw [movesAtTurn_iff _ t ht, hs], ?_, ?_, ?_⟩
  · intro q hq
    rw [movesAtTurn_iff q 1 le_rfl, hq]
  · intro t ht htk
    have := movesAtTurn_iff (p.suspend k) t ht
    rw [hs] at this
    rcases hb : movesAtTurn (p.suspend k) t with _ | _
    · rfl
    · exact absurd (this.mp hb) (by omega)
  · rw [movesAtTurn_iff _ k hk, hs]

lemma dice_roll_too_few (d : Dice) (h : d.dice.length < d.diceCount) :
    d.roll = .error .tooFewDice := by
  simp [Dice.roll, h]

lemma dice_roll_too_many (d : Dice) (h : d.diceCount < d.dice.length) :
    d.roll = .error .tooManyDice := by
  simp [Dice.roll, h, Nat.not_lt.mpr (Nat.le_of_lt h)]

/-- When the player at index `i` is not suspended and the dice are
misconfigured, the pass stops at that player's roll with the dice
error and no notification. -/
lemma roundLoop_roll_error (d : Dice) (b : Board) (ps : List Player) (i : Nat)
    (h : i < ps.length) (hw : (ps.get ⟨i, h⟩).suspension = 0) (e : WcError)
    (hr : d.roll = .error e) :
    roundLoop d b ps i = ([], .error e) := by
  rw [roundLoop, dif_pos h]
  have hwait : ps[i].waitIfNeeded.waiting = false := by
    have hw2 : ps[i].suspension = 0 := hw
    simp [Player.waitIfNeeded, Player.waiting, hw2]
  simp [hwait, hr]

lemma roundsLoop_error (d : Dice) (b : Board) (ps : List Player)
    (rn rounds : Nat) (hg : rn < rounds ∧ 1 < ps.length) (e : WcError)
    (hr : roundLoop d b ps 0 = ([], .error e)) :
    roundsLoop d b ps rn rounds = ([Event.onRound rn], .error e) := by
  rw [roundsLoop, if_pos hg]
  simp [hr]

/-- C5 counterexample: with one die supplied out of two configured and
a valid two-player roster, `play(1)` does raise the too-few-dice
error, but only at the first roll — after the observer has already
been notified of the start of round 0, so the observer does not
receive zero notifications. -/
theorem startup_notification_counterexample :
    (demoGameOneDie.play 1).2 = .error .tooFewDice ∧
    (demoGameOneDie.play 1).1 = [Event.onRound 0] ∧
    (demoGameOneDie.play 1).1 ≠ [] := by
  have : demoGameOneDie.play 1 = ([Event.onRound 0], .error .tooFewDice) := by
    simp [demoGameOneDie, WorldCup2022.play, WorldCup2022.init,
      WorldCup2022.addDie, WorldCup2022.addPlayer, Dice.addDie, roundsLoop,
      roundLoop, Dice.roll, mkPlayer, Player.waitIfNeeded, Player.waiting]
  rw [this]
  exact ⟨rfl, rfl, by simp⟩

/-- C5 amended: the two player-count misconfigurations raise their
distinct error at the moment `play` begins, before any rounds run and
with zero observer notifications; the two dice-count misconfigurations
raise their distinct error only at the first dice roll (here: a fresh
roster, so the first player of round 0 rolls), after the observer has
already received the round-start notification for round 0 but no
`onTurn` or `onWin` — and only when at least one round is requested. -/
theorem startup_errors (g : WorldCup2022) (rounds : Nat) :
    (11 < g.players.length → g.play rounds = ([], .error .tooManyPlayers)) ∧
    (g.players.length ≤ 11 → g.players.length < 2 →
      g.play rounds = ([], .error .tooFewPlayers)) ∧
    ((∀ p ∈ g.players, p.suspension = 0) → 2 ≤ g.players.length →
      g.players.length ≤ 11 → 1 ≤ rounds →
      (g.dice.dice.length < g.dice.diceCount →
        g.play rounds = ([Event.onRound 0], .error .tooFewDice)) ∧
      (g.dice.diceCount < g.dice.dice.length →
        g.play rounds = ([Event.onRound 0], .error .tooManyDice))) := by
  refine ⟨?_, ?_, ?_⟩
  · intro h
    simp [WorldCup2022.play, if_pos h]
  · intro h11 h2
    simp [WorldCup2022.play, Nat.not_lt.mpr h11, h2]
  · intro hfresh h2 h11 hr
    have hlen0 : 0 < g.players.length := by omega
    have hsusp : (g.players.get ⟨0, hlen0⟩).suspension = 0 :=
      hfresh _ (List.get_mem g.players 0 hlen0)
    constructor
    · intro hdice
      have hroll := dice_roll_too_few g.dice hdice
      have hrl := roundLoop_roll_error g.dice g.board g.players 0 hlen0 hsusp
        .tooFewDice hroll
      have hrs := roundsLoop_error g.dice g.board g.players 0 rounds
        ⟨by omega, by omega⟩ .tooFewDice hrl
      simp [WorldCup2022.play, Nat.not_lt.mpr h11, Nat.not_lt.mpr h2, hrs]
    · intro hdice
      have hroll := dice_roll_too_many g.dice hdice
      have hrl := roundLoop_roll_error g.dice g.board g.players 0 hlen0 hsusp
        .tooManyDice hroll
      have hrs := roundsLoop_error g.dice g.board g.players 0 rounds
        ⟨by omega, by omega⟩ .tooManyDice hrl
      simp [WorldCup2022.play, Nat.not_lt.mpr h11, Nat.not_lt.mpr h2, hrs]

theorem startup_errors_witness :
    demoGameTwelve.play 5 = ([], .error .tooManyPlayers) ∧
    demoGameOnePlayer.play 5 = ([], .error .tooFewPlayers) ∧
    demoGameOneDie.play 3 = ([Event.onRound 0], .error .tooFewDice) ∧
    demoGameThreeDice.play 3 = ([Event.onRound 0], .error .tooManyDice) :=
  ⟨(startup_errors demoGameTwelve 5).1 (by decide),
    (startup_errors demoGameOnePlayer 5).2.1 (by decide) (by decide),
    ((startup_errors demoGameOneDie 3).2.2 (by decide) (by decide) (by decide)
      (by decide)).1 (by decide),
    ((startup_errors demoGameThreeDice 3).2.2 (by decide) (by decide)
      (by decide) (by decide)).2 (by decide)⟩

lemma roundLoop_eraseIdx_length (ps : List Player) (i : Nat) (h : i < ps.length) :
    (ps.eraseIdx i).length = ps.length - 1 := by
  rw [List.length_eraseIdx]
  simp [h]

lemma eraseIdx_drop (l : List Player) (i : Nat) (h : i < l.length) :
    (l.eraseIdx i).drop i = l.drop (i + 1) := by
  have hlen : (l.take i).length = i := by rw [List.length_take]; omega
  have hd := List.drop_left (l.take i) (l.drop (i + 1))
  rw [hlen] at hd
  rw [List.eraseIdx_eq_take_drop_succ, hd]

lemma turnNames_cons (nm st fl : String) (c : Nat) (evs : List Event) :
    turnNames (Event.onTurn nm st fl c :: evs) = nm :: turnNames evs := by
  simp [turnNames]

/-- Fuel-indexed induction core for `roundLoop`: every emitted event is
a turn summary; on a successful pass the roster never grows, stays
nonempty when it held at least two players, and the turn summaries
name, in order, a prefix of the roster as it stood when the pass
reached index `i` — the whole remainder unless the pass ended early
with exactly one player left. -/
lemma roundLoop_core (n : Nat) :
    ∀ d b ps i, ps.length - i ≤ n →
      (∀ ev ∈ (roundLoop d b ps i).1,
        ∃ nm st fl c, ev = Event.onTurn nm st fl c) ∧
      (∀ d2 b2 res, (roundLoop d b ps i).2 = Except.ok (d2, b2, res) →
        res.length ≤ ps.length ∧
        (2 ≤ ps.length → 1 ≤ res.length) ∧
        ∃ k, k ≤ ps.length - i ∧
          turnNames (roundLoop d b ps i).1 =
            ((ps.drop i).take k).map Player.name ∧
          (k = ps.length - i ∨ res.length = 1)) := by
  induction n with
  | zero =>
      intro d b ps i hn
      have hni : ¬ i < ps.length := by omega
      rw [roundLoop, dif_neg hni]
      dsimp only
      constructor
      · intro ev hev
        simp at hev
      · intro d2 b2 res hok
        cases hok
        exact ⟨le_rfl, fun _ => by omega, 0, by omega, by simp [turnNames],
          Or.inl (by omega)⟩
  | succ n ih =>
      intro d b ps i hn
      by_cases hi : i < ps.length
      case neg =>
        rw [roundLoop, dif_neg hi]
        dsimp only
        constructor
        · intro ev hev
          simp at hev
        · intro d2 b2 res hok
          cases hok
          exact ⟨le_rfl, fun _ => by omega, 0, by omega, by simp [turnNames],
            Or.inl (by omega)⟩
      case pos =>
      rw [roundLoop, dif_pos hi]
      dsimp only
      simp only [List.get_eq_getElem]
      by_cases hw : (ps[i].waitIfNeeded).waiting = true
      · rw [if_pos hw]
        dsimp only
        have hname : (ps[i].waitIfNeeded).name = ps[i].name := waitIfNeeded_name _
        by_cases hb : (ps[i].waitIfNeeded).bankrupted = true
        · rw [if_pos hb]
          by_cases h1 : (ps.eraseIdx i).length = 1
          · rw [if_pos h1]
            dsimp only
            constructor
            · intro ev hev
              simp only [List.mem_singleton] at hev
              exact ⟨_, _, _, _, hev⟩
            · intro d2 b2 res hok
              cases hok
              have hlen := roundLoop_eraseIdx_length ps i hi
              refine ⟨by omega, fun _ => by omega, 1, by omega, ?_, Or.inr h1⟩
              rw [List.drop_eq_getElem_cons hi, List.take_succ_cons,
                List.take_zero, List.map_cons, List.map_nil]
              simp [turnNames, hname]
          · rw [if_neg h1]
            dsimp only
            have hlen := roundLoop_eraseIdx_length ps i hi
            have hfuel : (ps.eraseIdx i).length - i ≤ n := by omega
            have IH := ih d b (ps.eraseIdx i) i hfuel
            constructor
            · intro ev hev
              rcases List.mem_cons.mp hev with h | h
              · exact ⟨_, _, _, _, h⟩
              · exact IH.1 ev h
            · intro d2 b2 res hok
              obtain ⟨hres_le, hres_pos, k2, hk2le, hknames, hkdisj⟩ :=
                IH.2 d2 b2 res hok
              refine ⟨by omega, fun _ => hres_pos (by omega), k2 + 1, by omega,
                ?_, ?_⟩
              · rw [eraseIdx_drop ps i hi] at hknames
                rw [turnNames_cons, hknames, List.drop_eq_getElem_cons hi,
                  List.take_succ_cons, List.map_cons, hname]
              · rcases hkdisj with h | h
                · exact Or.inl (by omega)
                · exact Or.inr h
        · rw [if_neg hb]
          dsimp only
          have hset : (ps.set i (ps[i].waitIfNeeded)).length = ps.length :=
            List.length_set ..
          have hfuel : (ps.set i (ps[i].waitIfNeeded)).length - (i + 1) ≤ n := by
            rw [hset]; omega
          have IH := ih d b (ps.set i (ps[i].waitIfNeeded)) (i + 1) hfuel
          constructor
          · intro ev hev
            rcases List.mem_cons.mp hev with h | h
            · exact ⟨_, _, _, _, h⟩
            · exact IH.1 ev h
          · intro d2 b2 res hok
            obtain ⟨hres_le, hres_pos, k2, hk2le, hknames, hkdisj⟩ :=
              IH.2 d2 b2 res hok
            refine ⟨by omega, fun _ => hres_pos (by omega), k2 + 1, by omega,
              ?_, ?_⟩
            · rw [List.drop_set_of_lt _ _ (by omega : i < i + 1)] at hknames
              rw [turnNames_cons, hknames, List.drop_eq_getElem_cons hi,
                List.take_succ_cons, List.map_cons, hname]
            · rcases hkdisj with h | h
              · exact Or.inl (by omega)
              · exact Or.inr h
      · rcases hr : d.roll with e | ⟨n2, dd⟩
        · rw [if_neg hw]
          dsimp only
          constructor
          · intro ev hev
            simp at hev
          · intro d2 b2 res hok
            simp at hok
        · rw [if_neg hw]
          dsimp only
          have hname : ((b.playerMove (ps[i].waitIfNeeded) n2).2.1).name
              = ps[i].name := by
            rw [playerMove_name, waitIfNeeded_name]
          by_cases hb : ((b.playerMove (ps[i].waitIfNeeded) n2).2.1).bankrupted
              = true
          · rw [if_pos hb]
            by_cases h1 : (ps.eraseIdx i).length = 1
            · rw [if_pos h1]
              dsimp only
              constructor
              · intro ev hev
                simp only [List.mem_singleton] at hev
                exact ⟨_, _, _, _, hev⟩
              · intro d2 b2 res hok
                cases hok
                have hlen := roundLoop_eraseIdx_length ps i hi
                refine ⟨by omega, fun _ => by omega, 1, by omega, ?_,
                  Or.inr h1⟩
                rw [List.drop_eq_getElem_cons hi, List.take_succ_cons,
                  List.take_zero, List.map_cons, List.map_nil]
                simp [turnNames, hname]
            · rw [if_neg h1]
              dsimp only
              have hlen := roundLoop_eraseIdx_length ps i hi
              have hfuel : (ps.eraseIdx i).length - i ≤ n := by omega
              have IH := ih dd (b.playerMove (ps[i].waitIfNeeded) n2).1
                (ps.eraseIdx i) i hfuel
              constructor
              · intro ev hev
                rcases List.mem_cons.mp hev with h | h
                · exact ⟨_, _, _, _, h⟩
                · exact IH.1 ev h
              · intro d2 b2 res hok
                obtain ⟨hres_le, hres_pos, k2, hk2le, hknames, hkdisj⟩ :=
                  IH.2 d2 b2 res hok
                refine ⟨by omega, fun _ => hres_pos (by omega), k2 + 1,
                  by omega, ?_, ?_⟩
                · rw [eraseIdx_drop ps i hi] at hknames
                  rw [turnNames_cons, hknames, List.drop_eq_getElem_cons hi,
                    List.take_succ_cons, List.map_cons, hname]
                · rcases hkdisj with h | h
                  · exact Or.inl (by omega)
                  · exact Or.inr h
          · rw [if_neg hb]
            dsimp only
            have hset : (ps.set i ((b.playerMove (ps[i].waitIfNeeded)
                n2).2.1)).length = ps.length := List.length_set ..
            have hfuel : (ps.set i ((b.playerMove (ps[i].waitIfNeeded)
                n2).2.1)).length - (i + 1) ≤ n := by rw [hset]; omega
            have IH := ih dd (b.playerMove (ps[i].waitIfNeeded) n2).1
              (ps.set i ((b.playerMove (ps[i].waitIfNeeded) n2).2.1))
              (i + 1) hfuel
            constructor
            · intro ev hev
              rcases List.mem_cons.mp hev with h | h
              · exact ⟨_, _, _, _, h⟩
              · exact IH.1 ev h
            · intro d2 b2 res hok
              obtain ⟨hres_le, hres_pos, k2, hk2le, hknames, hkdisj⟩ :=
                IH.2 d2 b2 res hok
              refine ⟨by omega, fun _ => hres_pos (by omega), k2 + 1, by omega,
                ?_, ?_⟩
              · rw [List.drop_set_of_lt _ _ (by omega : i < i + 1)] at hknames
                rw [turnNames_cons, hknames, List.drop_eq_getElem_cons hi,
                  List.take_succ_cons, List.map_cons, hname]
              · rcases hkdisj with h | h
                · exact Or.inl (by omega)
                · exact Or.inr h

/-- Fuel-indexed induction core for `roundsLoop`: it emits only round
starts and turn summaries (never a win), and on success a nonempty
roster stays nonempty. -/
lemma roundsLoop_core (m : Nat) :
    ∀ d b ps rn rounds, rounds - rn ≤ m →
      (∀ ev ∈ (roundsLoop d b ps rn rounds).1,
        (∃ r0, ev = Event.onRound r0) ∨
        (∃ nm st fl c, ev = Event.onTurn nm st fl c)) ∧
      (∀ d2 b2 res, (roundsLoop d b ps rn rounds).2 = Except.ok (d2, b2, res) →
        1 ≤ ps.length → 1 ≤ res.length) := by
  induction m with
  | zero =>
      intro d b ps rn rounds hm
      have hg : ¬(rn < rounds ∧ 1 < ps.length) := by omega
      rw [roundsLoop, if_neg hg]
      dsimp only
      exact ⟨by simp, fun d2 b2 res hok hp => by cases hok; omega⟩
  | succ m ih =>
      intro d b ps rn rounds hm
      by_cases hg : rn < rounds ∧ 1 < ps.length
      case neg =>
        rw [roundsLoop, if_neg hg]
        dsimp only
        exact ⟨by simp, fun d2 b2 res hok hp => by cases hok; omega⟩
      case pos =>
      rw [roundsLoop, if_pos hg]
      dsimp only
      rcases hr : (roundLoop d b ps 0).2 with e | ⟨d2, b2, ps2⟩
      · dsimp only
        constructor
        · intro ev hev
          rcases List.mem_cons.mp hev with h | h
          · exact Or.inl ⟨rn, h⟩
          · obtain ⟨nm, st, fl, c, hev2⟩ :=
              (roundLoop_core ps.length d b ps 0 (by omega)).1 ev h
            exact Or.inr ⟨nm, st, fl, c, hev2⟩
        · intro d2 b2 res hok
          simp at hok
      · dsimp only
        have IH := ih d2 b2 ps2 (rn + 1) rounds (by omega)
        have hpos2 : 1 ≤ ps2.length := by
          have hc := (roundLoop_core ps.length d b ps 0 (by omega)).2 d2 b2 ps2 hr
          exact hc.2.1 (by omega)
        constructor
        · intro ev hev
          rcases List.mem_cons.mp hev with h | h
          · exact Or.inl ⟨rn, h⟩
          · rcases List.mem_append.mp h with h2 | h2
            · obtain ⟨nm, st, fl, c, hev2⟩ :=
                (roundLoop_core ps.length d b ps 0 (by omega)).1 ev h2
              exact Or.inr ⟨nm, st, fl, c, hev2⟩
            · exact IH.1 ev h2
        · intro d3 b3 res hok hp
          exact IH.2 d3 b3 res hok hpos2

/-- C9: within a round, a successful pass from index 0 produces one
turn summary per processed player, in roster order, for a prefix of
the roster (no player skipped or double-processed); the prefix is the
whole roster unless the pass ended early with exactly one player left;
the roster never grows; and once the roster is down to one player the
round loop runs no further rounds and emits nothing. -/
theorem round_iteration (d : Dice) (b : Board) (ps : List Player)
    (evs : List Event) (d2 : Dice) (b2 : Board) (res : List Player)
    (rn rounds : Nat) :
    (roundLoop d b ps 0 = (evs, Except.ok (d2, b2, res)) →
      res.length ≤ ps.length ∧
      ∃ k, k ≤ ps.length ∧ turnNames evs = (ps.take k).map Player.name ∧
        (k = ps.length ∨ res.length = 1)) ∧
    (ps.length ≤ 1 → roundsLoop d b ps rn rounds = ([], Except.ok (d, b, ps))) := by
  constructor
  · intro h
    have h1 : (roundLoop d b ps 0).1 = evs := by rw [h]
    have h2 : (roundLoop d b ps 0).2 = Except.ok (d2, b2, res) := by rw [h]
    obtain ⟨hle, _, k, hk, hnames, hdisj⟩ :=
      (roundLoop_core ps.length d b ps 0 (by omega)).2 d2 b2 res h2
    refine ⟨hle, k, by omega, ?_, ?_⟩
    · rw [← h1, hnames, List.drop_zero]
    · rcases hdisj with hd | hd
      · exact Or.inl (by omega)
      · exact Or.inr hd
  · intro hlen
    rw [roundsLoop, if_neg (by omega)]

lemma findWinner_cons_self (p : Player) (rest : List Player) :
    findWinner (p :: rest) p = findWinner rest p := by
  rw [findWinner]
  congr 1
  exact if_neg (lt_irrefl _)

/-- The strict-greater running-best fold returns the first player
attaining the maximum money of `w :: ps`. -/
lemma findWinner_first_max (ps : List Player) (w : Player) :
    ∃ l1 l2, w :: ps = l1 ++ findWinner ps w :: l2 ∧
      (∀ q ∈ l1, q.money < (findWinner ps w).money) ∧
      (∀ q ∈ w :: ps, q.money ≤ (findWinner ps w).money) := by
  induction ps generalizing w with
  | nil => exact ⟨[], [], rfl, by simp, by simp [findWinner]⟩
  | cons p rest ih =>
      rw [findWinner]
      by_cases hlt : w.money < p.money
      · rw [if_pos hlt]
        obtain ⟨l1, l2, hsplit, hstrict, hmax⟩ := ih p
        refine ⟨w :: l1, l2, ?_, ?_, ?_⟩
        · rw [List.cons_append, ← hsplit]
        · intro q hq
          rcases List.mem_cons.mp hq with h | h
          · subst h
            exact lt_of_lt_of_le hlt (hmax p (List.mem_cons_self p rest))
          · exact hstrict q h
        · intro q hq
          rcases List.mem_cons.mp hq with h | h
          · subst h
            exact le_of_lt (lt_of_lt_of_le hlt (hmax p (List.mem_cons_self p rest)))
          · exact hmax q h
      · rw [if_neg hlt]
        obtain ⟨l1, l2, hsplit, hstrict, hmax⟩ := ih w
        have hple : p.money ≤ w.money := by omega
        cases l1 with
        | nil =>
            simp only [List.nil_append] at hsplit
            injection hsplit with hw1 hw2
            refine ⟨[], p :: l2, ?_, by simp, ?_⟩
            · rw [List.nil_append, ← hw1, ← hw2]
            · intro q hq
              rcases List.mem_cons.mp hq with h | h
              · rw [h]
                exact hmax w (List.mem_cons_self w rest)
              rcases List.mem_cons.mp h with h2 | h2
              · rw [h2]
                exact le_trans hple (hmax w (List.mem_cons_self w rest))
              · exact hmax q (List.mem_cons_of_mem w h2)
        | cons a l1x =>
            rw [List.cons_append] at hsplit
            injection hsplit with ha hrest
            have hastrict := hstrict a (List.mem_cons_self a l1x)
            rw [← ha] at hastrict
            refine ⟨w :: p :: l1x, l2, ?_, ?_, ?_⟩
            · rw [List.cons_append, List.cons_append, ← hrest]
            · intro q hq
              rcases List.mem_cons.mp hq with h | h
              · rw [h]
                exact hastrict
              rcases List.mem_cons.mp h with h2 | h2
              · rw [h2]
                exact lt_of_le_of_lt hple hastrict
              · exact hstrict q (List.mem_cons_of_mem a h2)
            · intro q hq
              rcases List.mem_cons.mp hq with h | h
              · rw [h]
                exact hmax w (List.mem_cons_self w rest)
              rcases List.mem_cons.mp h with h2 | h2
              · rw [h2]
                exact le_trans hple (hmax w (List.mem_cons_self w rest))
              · exact hmax q (List.mem_cons_of_mem w h2)

/-- C8: whenever `play` terminates without a startup error, the
declared winner is a player of the final roster whose money is maximal,
with every strictly earlier roster entry strictly poorer (first entry
wins ties, per the strict-greater running best started at the first
entry), and the observer receives exactly one game-won notification —
the last event — carrying that player's name. -/
theorem play_winner (g : WorldCup2022) (rounds : Nat) (evs : List Event)
    (ps2 : List Player) (h : g.play rounds = (evs, Except.ok ps2)) :
    ∃ w l1 l2, ps2 = l1 ++ w :: l2 ∧
      (∀ q ∈ l1, q.money < w.money) ∧
      (∀ q ∈ ps2, q.money ≤ w.money) ∧
      evs.countP (fun e => match e with
        | .onWin _ => true
        | _ => false) = 1 ∧
      evs.getLast? = some (Event.onWin w.name) := by
  unfold WorldCup2022.play at h
  by_cases h11 : 11 < g.players.length
  · rw [if_pos h11] at h
    simp at h
  rw [if_neg h11] at h
  by_cases h2 : g.players.length < 2
  · rw [if_pos h2] at h
    simp at h
  rw [if_neg h2] at h
  dsimp only at h
  rcases hr : (roundsLoop g.dice g.board g.players 0 rounds).2 with e | ⟨d2, b2, ps3⟩
  · rw [hr] at h
    dsimp only at h
    simp at h
  · rw [hr] at h
    cases ps3 with
    | nil =>
        have hpos := (roundsLoop_core rounds g.dice g.board g.players 0 rounds
          (by omega)).2 d2 b2 [] hr (by omega)
        simp at hpos
    | cons p rest =>
        dsimp only at h
        simp only [Prod.mk.injEq, Except.ok.injEq] at h
        obtain ⟨hev, hps⟩ := h
        subst hps
        subst hev
        have hnowin : ∀ ev ∈ (roundsLoop g.dice g.board g.players 0 rounds).1,
            (match ev with
              | Event.onWin _ => true
              | _ => false) = false := by
          intro ev hevm
          rcases (roundsLoop_core rounds g.dice g.board g.players 0 rounds
            (by omega)).1 ev hevm with ⟨r0, hr0⟩ | ⟨nm, st, fl, c, ht⟩
          · rw [hr0]
          · rw [ht]
        rw [findWinner_cons_self]
        obtain ⟨l1, l2, hsplit, hstrict, hmax⟩ := findWinner_first_max rest p
        refine ⟨findWinner rest p, l1, l2, hsplit, hstrict, hmax, ?_, ?_⟩
        · rw [List.countP_append]
          rw [List.countP_eq_zero.mpr (fun a ha => by simp [hnowin a ha])]
          rfl
        · exact List.getLast?_concat _

theorem round_iteration_witness :
    ([(⟨"A", 1000, 1, 0, false⟩ : Player)].length ≤ [mkPlayer "A"].length ∧
      ∃ k, k ≤ [mkPlayer "A"].length ∧
        turnNames [Event.onTurn "A" "w grze" "Mecz z San Marino" 1000] =
          ([mkPlayer "A"].take k).map Player.name ∧
        (k = [mkPlayer "A"].length ∨
          [(⟨"A", 1000, 1, 0, false⟩ : Player)].length = 1)) ∧
    roundsLoop demoGame.dice demoGame.board [mkPlayer "A"] 3 5 =
      ([], Except.ok (demoGame.dice, demoGame.board, [mkPlayer "A"])) :=
  ⟨(round_iteration demoGame.dice demoGame.board [mkPlayer "A"]
      [Event.onTurn "A" "w grze" "Mecz z San Marino" 1000]
      ⟨[fun _ => 1, fun _ => 0], 2, 1⟩ worldcupBoard
      [⟨"A", 1000, 1, 0, false⟩] 3 5).1
      (by simp [demoGame, WorldCup2022.init, WorldCup2022.addDie,
        WorldCup2022.addPlayer, Dice.addDie, roundLoop, Dice.roll, mkPlayer,
        Player.waitIfNeeded, Player.waiting, worldcupBoard, Board.playerMove,
        passLoop, passAt, landAt, passField, landOnField, Player.pay,
        Player.take, Player.move, Player.getStatus, Board.getFieldName]),
    (round_iteration demoGame.dice demoGame.board [mkPlayer "A"]
      [] demoGame.dice demoGame.board [] 3 5).2 (by simp)⟩

theorem play_winner_witness :
    ∃ w l1 l2,
      [(⟨"A", 1000, 1, 0, false⟩ : Player), ⟨"B", 1000, 1, 0, false⟩] =
        l1 ++ w :: l2 ∧
      (∀ q ∈ l1, q.money < w.money) ∧
      (∀ q ∈ [(⟨"A", 1000, 1, 0, false⟩ : Player), ⟨"B", 1000, 1, 0, false⟩],
        q.money ≤ w.money) ∧
      ([Event.onRound 0, Event.onTurn "A" "w grze" "Mecz z San Marino" 1000,
        Event.onTurn "B" "w grze" "Mecz z San Marino" 1000,
        Event.onWin "A"].countP (fun e => match e with
          | Event.onWin _ => true
          | _ => false)) = 1 ∧
      [Event.onRound 0, Event.onTurn "A" "w grze" "Mecz z San Marino" 1000,
        Event.onTurn "B" "w grze" "Mecz z San Marino" 1000,
        Event.onWin "A"].getLast? = some (Event.onWin w.name) :=
  play_winner demoGame 1
    [Event.onRound 0, Event.onTurn "A" "w grze" "Mecz z San Marino" 1000,
      Event.onTurn "B" "w grze" "Mecz z San Marino" 1000, Event.onWin "A"]
    [⟨"A", 1000, 1, 0, false⟩, ⟨"B", 1000, 1, 0, false⟩]
    (by simp [demoGame, WorldCup2022.play, WorldCup2022.init,
      WorldCup2022.addDie, WorldCup2022.addPlayer, Dice.addDie, roundsLoop,
      roundLoop, Dice.roll, mkPlayer, Player.waitIfNeeded, Player.waiting,
      worldcupBoard, Board.playerMove, passLoop, passAt, landAt, passField,
      landOnField, Player.pay, Player.take, Player.move, Player.getStatus,
      Board.getFieldName, findWinner])

theorem suspension_skips_witness :
    (movesAtTurn ((mkPlayer "S").suspend 3) 2 = true ↔ 3 ≤ 2) ∧
    movesAtTurn ((mkPlayer "S").suspend 1) 1 = true ∧
    movesAtTurn ((mkPlayer "S").suspend 3) 2 = false ∧
    movesAtTurn ((mkPlayer "S").suspend 3) 3 = true := by
  have h := suspension_skips (mkPlayer "S") 3 (by decide)
  exact ⟨h.1 2 (by decide),
    (suspension_skips (mkPlayer "S") 1 (by decide)).2.1
      ((mkPlayer "S").suspend 1) (by decide),
    h.2.2.1 2 (by decide) (by decide), h.2.2.2⟩

end WorldCup
